import Mathlib

/-!
Shallow embedding of the QR-code generator in src/QR.py.

The Python module builds a square grid of booleans ("dark"/"light" modules)
from an input string: `DataEncoder.encode` turns the text into a bit list,
`ReedSolomon.encode` appends a placeholder redundancy block, and
`MatrixConstructor.build_matrix` stamps function patterns, places the data
bits and applies a fixed mask.  Grids are modelled as functions
`Nat → Nat → Bool` (first argument: row `y`, second: column `x`), matching
`self.matrix[y][x]`; every in-place assignment becomes a pointwise update.
-/

set_option maxRecDepth 100000

namespace QR

/-- Error-correction levels, from `class ErrorCorrectionLevel(Enum)`. -/
inductive ECLevel where
  | L | M | Q | H
deriving DecidableEq, Repr

/-- A module grid: `g y x` is the cell at row `y`, column `x`
(`self.matrix[y][x]` in the source). -/
def Grid : Type := Nat → Nat → Bool

/-- The all-light grid `[[False] * size for _ in range(size)]` allocated in
`MatrixConstructor.__init__` (reads are only ever in range, so the
out-of-range values of the function model are never observed). -/
def freshGrid : Grid := fun _ _ => false

/-- One in-place assignment `self.matrix[y][x] = b`. -/
def setCell (g : Grid) (y x : Nat) (b : Bool) : Grid :=
  fun y' x' => if y' = y ∧ x' = x then b else g y' x'

/-- A sequence of assignments `self.matrix[y][x] = b`, applied left to right;
each element is `(y, x, b)`. -/
def applyWrites (g : Grid) (ws : List (Nat × Nat × Bool)) : Grid :=
  ws.foldl (fun h w => setCell h w.1 w.2.1 w.2.2) g

/-- Matrix side length `(version - 1) * 4 + 21`, from
`MatrixConstructor.__init__` / `QRCode._calculate_size`. -/
def qrSize (version : Nat) : Nat := (version - 1) * 4 + 21

/-! ## DataEncoder -/

/-- Capacity table of `DataEncoder._get_capacity`: a dict over
`(version, error_correction)` with default `100`. -/
def capacity (version : Nat) (lvl : ECLevel) : Nat :=
  match version, lvl with
  | 1, .L => 41
  | 1, .M => 34
  | 1, .Q => 27
  | 1, .H => 17
  | _, _ => 100

/-- Character-count field width, from `DataEncoder._get_character_count_bits`. -/
def charCountBits (version : Nat) (lvl : ECLevel) : Nat :=
  if 1 ≤ version ∧ version ≤ 9 then
    match lvl with
    | .L => 10
    | .M => 10
    | _ => 8
  else 12

/-- Binary digits, structurally recursive on a fuel argument that bounds the
number of halvings (`n` halvings always suffice since `n / 2 < n` for
`n ≥ 2`). -/
def bitsOfNatAux : Nat → Nat → List Nat
  | 0, n => [n % 2]
  | fuel + 1, n => if n < 2 then [n % 2] else bitsOfNatAux fuel (n / 2) ++ [n % 2]

/-- Big-endian binary digits of `n`, as produced by `format(n, 'b')`
(`format(0, 'b') = "0"`). -/
def bitsOfNat (n : Nat) : List Nat := bitsOfNatAux n n

/-- `DataEncoder._number_to_bits`: `format(number, f'0{bit_length}b')` pads
with leading zeros up to `bit_length` but never truncates. -/
def numberToBits (number width : Nat) : List Nat :=
  let b := bitsOfNat number
  List.replicate (width - b.length) 0 ++ b

/-- ASCII decimal digit test (code points 48–57). -/
def isAsciiDigit (c : Char) : Bool :=
  decide (48 ≤ c.toNat) && decide (c.toNat ≤ 57)

/-- Decimal value of an ASCII digit character. -/
def digitVal (c : Char) : Nat := c.toNat - 48

/-- Python `int(s)` on a substring of an `isdigit()`-true string.  `int()`
only accepts Unicode *decimal* digits (category Nd; in the Latin-1 range
exactly '0'–'9'), so it raises `ValueError` on digit-property characters
such as the superscripts '¹', '²', '³' — modelled here as `none`. -/
def pyIntDigits (cs : List Char) : Option Nat :=
  if cs ≠ [] ∧ cs.all isAsciiDigit then
    some (cs.foldl (fun a c => 10 * a + digitVal c) 0)
  else none

/-- Python `str.isdigit()` on one character, modelled on the Latin-1 range:
true exactly on '0'–'9' and on the superscript digits '¹' (U+00B9),
'²' (U+00B2), '³' (U+00B3).  (Characters above U+00FF are treated as
non-digits by the model.) -/
def pyIsDigitChar (c : Char) : Bool :=
  isAsciiDigit c || decide (c = '¹') || decide (c = '²') || decide (c = '³')

/-- Python `data.isdigit()`: nonempty and every character a digit. -/
def pyIsDigit (s : List Char) : Bool :=
  !s.isEmpty && s.all pyIsDigitChar

/-- UTF-8 bytes of one character (standard encoding; Lean `Char` excludes
surrogates, exactly like Python `str`). -/
def utf8Bytes (c : Char) : List Nat :=
  let n := c.toNat
  if n < 128 then [n]
  else if n < 2048 then [192 + n / 64, 128 + n % 64]
  else if n < 65536 then [224 + n / 4096, 128 + (n / 64) % 64, 128 + n % 64]
  else [240 + n / 262144, 128 + (n / 4096) % 64, 128 + (n / 64) % 64, 128 + n % 64]

/-- `data.encode('utf-8')` as a list of byte values. -/
def utf8Encode (s : List Char) : List Nat := s.flatMap utf8Bytes

/-- The numeric-mode grouping loop of `DataEncoder._encode_numeric`: groups of
3 digits as 10 bits, a final pair as 7 bits, a final single digit as 4 bits.
`none` models the `ValueError` that `int()` raises on a non-decimal digit. -/
def numericGroupBits : List Char → Option (List Nat)
  | [] => some []
  | [d1] => (pyIntDigits [d1]).map (fun n => numberToBits n 4)
  | [d1, d2] => (pyIntDigits [d1, d2]).map (fun n => numberToBits n 7)
  | d1 :: d2 :: d3 :: rest =>
      (pyIntDigits [d1, d2, d3]).bind (fun n =>
        (numericGroupBits rest).map (fun tail => numberToBits n 10 ++ tail))

/-- The padding loop, structurally recursive on a fuel argument that bounds
the number of passes (each pass appends 8 symbols, so `cap` passes always
suffice). -/
def padToAux : Nat → Nat → List Nat → List Nat
  | 0, _, l => l
  | fuel + 1, cap, l =>
      if l.length < cap then padToAux fuel cap (l ++ [1, 1, 1, 0, 1, 1, 0, 0]) else l

/-- The padding loop `while len(result) < self.capacity: result.extend([1,1,1,0,1,1,0,0])`. -/
def padTo (cap : Nat) (l : List Nat) : List Nat := padToAux cap cap l

/-- `DataEncoder._encode_numeric` (mode indicator, count field, digit groups,
terminator, padding, truncation to capacity).  `none` models the uncaught
`ValueError` from `int()` on a non-decimal digit character. -/
def encodeNumeric (version : Nat) (lvl : ECLevel) (s : List Char) : Option (List Nat) :=
  (numericGroupBits s).map (fun payload =>
    (padTo (capacity version lvl)
      ([0, 0, 0, 1] ++ numberToBits s.length (charCountBits version lvl) ++ payload
        ++ [0, 0, 0, 0])).take (capacity version lvl))

/-- `DataEncoder._encode_byte`: mode indicator 0100, UTF-8 byte count, each
byte as 8 bits, terminator, padding, truncation to capacity. -/
def encodeByte (version : Nat) (lvl : ECLevel) (s : List Char) : List Nat :=
  let bytes := utf8Encode s
  (padTo (capacity version lvl)
    ([0, 1, 0, 0] ++ numberToBits bytes.length (charCountBits version lvl)
      ++ bytes.flatMap (fun b => numberToBits b 8) ++ [0, 0, 0, 0])).take (capacity version lvl)

/-- `DataEncoder.encode`: numeric mode when `data.isdigit()`, else byte mode. -/
def encode (version : Nat) (lvl : ECLevel) (s : List Char) : Option (List Nat) :=
  if pyIsDigit s then encodeNumeric version lvl s else some (encodeByte version lvl s)

/-! ## ReedSolomon -/

/-- `ReedSolomon.encode`: `data + data[:10]`. -/
def rsEncode (data : List Nat) (_version : Nat) (_lvl : ECLevel) : List Nat :=
  data ++ data.take 10

/-! ## MatrixConstructor -/

/-- `MatrixConstructor._is_function_pattern(x, y)`: finder regions, timing
row/column, format-information margins. -/
def isFunctionPattern (size x y : Nat) : Bool :=
  (decide (x < 7) && decide (y < 7))
    || (decide (x > size - 8) && decide (y < 7))
    || (decide (x < 7) && decide (y > size - 8))
    || decide (x = 6) || decide (y = 6)
    || (decide (x < 9) && decide (y < 9))
    || (decide (x > size - 9) && decide (y < 9))
    || (decide (x < 9) && decide (y > size - 9))

/-- Value stamped at offset `(i, j)` of a finder pattern block
(`_add_finder_patterns` inner conditional). -/
def finderCellVal (i j : Nat) : Bool :=
  if i = 0 ∨ i = 6 ∨ j = 0 ∨ j = 6 then true
  else if 2 ≤ i ∧ i ≤ 4 ∧ 2 ≤ j ∧ j ≤ 4 then true
  else false

/-- The 49 writes `self.matrix[y + j][x + i] = …` of one finder block, in the
source's loop order (`i` outer, `j` inner). -/
def finderBlockWrites (x y : Nat) : List (Nat × Nat × Bool) :=
  (List.range 7).flatMap (fun i =>
    (List.range 7).map (fun j => (y + j, x + i, finderCellVal i j)))

/-- `MatrixConstructor._add_finder_patterns`: blocks at `(0,0)`,
`(size-7, 0)`, `(0, size-7)`. -/
def addFinderPatterns (size : Nat) (g : Grid) : Grid :=
  applyWrites g (finderBlockWrites 0 0 ++ finderBlockWrites (size - 7) 0
    ++ finderBlockWrites 0 (size - 7))

/-- Value stamped at offset `(i, j)` of the alignment pattern
(`_add_alignment_patterns` inner conditional). -/
def alignCellVal (i j : Nat) : Bool :=
  if i = 0 ∨ i = 4 ∨ j = 0 ∨ j = 4 then true
  else if i = 2 ∧ j = 2 then true
  else false

/-- `MatrixConstructor._get_alignment_positions`. -/
def alignPositions (version size : Nat) : List (Nat × Nat) :=
  if 2 ≤ version ∧ version ≤ 6 then [(size - 7, size - 7)]
  else [(size - 9, size - 9)]

/-- The skip test applied to each alignment position (`continue` when it
overlaps a finder margin). -/
def alignSkip (size : Nat) (p : Nat × Nat) : Bool :=
  (decide (p.1 < 9) && decide (p.2 < 9))
    || (decide (p.1 > size - 10) && decide (p.2 < 9))
    || (decide (p.1 < 9) && decide (p.2 > size - 10))

/-- The 25 writes `self.matrix[y + j - 2][x + i - 2] = …` of one alignment
stamp, in loop order. -/
def alignWrites (p : Nat × Nat) : List (Nat × Nat × Bool) :=
  (List.range 5).flatMap (fun i =>
    (List.range 5).map (fun j => (p.2 + j - 2, p.1 + i - 2, alignCellVal i j)))

/-- `MatrixConstructor._add_alignment_patterns` (no-op for version 1). -/
def addAlignmentPatterns (version size : Nat) (g : Grid) : Grid :=
  if version = 1 then g
  else applyWrites g
    (((alignPositions version size).filter (fun p => !alignSkip size p)).flatMap alignWrites)

/-- The index range `range(8, size - 8)` of the timing loops. -/
def timingRange (size : Nat) : List Nat :=
  (List.range (size - 16)).map (fun k => k + 8)

/-- `MatrixConstructor._add_timing_patterns`: row 6 then column 6, dark at
even coordinates. -/
def addTimingPatterns (size : Nat) (g : Grid) : Grid :=
  applyWrites g
    ((timingRange size).map (fun i => (6, i, decide (i % 2 = 0)))
      ++ (timingRange size).map (fun i => (i, 6, decide (i % 2 = 0))))

/-- `MatrixConstructor._add_dark_module`: `self.matrix[4*version+9][8] = True`. -/
def addDarkModule (version : Nat) (g : Grid) : Grid :=
  setCell g (4 * version + 9) 8 true

/-- The 15 writes of `MatrixConstructor._add_format_info` (all values
`False`, since `format_info = [False] * 15`). -/
def formatWrites : List (Nat × Nat × Bool) :=
  (List.range 15).map (fun i =>
    if i < 8 then (8, if i = 6 then 7 else i, false) else (14 - i, 8, false))

/-- `MatrixConstructor._add_format_info`. -/
def addFormatInfo (g : Grid) : Grid := applyWrites g formatWrites

/-- Row-major scan order of `_add_data` and `_apply_mask`: `y` outer, `x`
inner; elements are `(y, x)`. -/
def rowMajor (size : Nat) : List (Nat × Nat) :=
  (List.range size).flatMap (fun y => (List.range size).map (fun x => (y, x)))

/-- One iteration of the `_add_data` loop body, threading `bit_index`. -/
def addDataStep (size : Nat) (bits : List Nat) (st : Grid × Nat) (p : Nat × Nat) :
    Grid × Nat :=
  if !isFunctionPattern size p.2 p.1 && decide (st.2 < bits.length) then
    (setCell st.1 p.1 p.2 (decide (bits.getD st.2 0 ≠ 0)), st.2 + 1)
  else st

/-- `MatrixConstructor._add_data`. -/
def addData (size : Nat) (bits : List Nat) (g : Grid) : Grid :=
  ((rowMajor size).foldl (addDataStep size bits) (g, 0)).1

/-- One iteration of the `_apply_mask` loop body. -/
def maskStep (size : Nat) (g : Grid) (p : Nat × Nat) : Grid :=
  if !isFunctionPattern size p.2 p.1 && decide ((p.2 + p.1) % 3 = 0) then
    setCell g p.1 p.2 (!g p.1 p.2)
  else g

/-- `MatrixConstructor._apply_mask`. -/
def applyMask (size : Nat) (g : Grid) : Grid :=
  (rowMajor size).foldl (maskStep size) g

/-- Steps 1–5 of `build_matrix` (everything before data placement), starting
from the constructor's current grid `g`. -/
def stampedFrom (version : Nat) (g : Grid) : Grid :=
  addFormatInfo (addDarkModule version
    (addTimingPatterns (qrSize version)
      (addAlignmentPatterns version (qrSize version)
        (addFinderPatterns (qrSize version) g))))

/-- `MatrixConstructor.build_matrix`, starting from the constructor's current
grid `g` (the grid is a mutable field, reused across calls). -/
def buildMatrix (version : Nat) (bits : List Nat) (g : Grid) : Grid :=
  applyMask (qrSize version) (addData (qrSize version) bits (stampedFrom version g))

/-! ## QRCode -/

/-- The mutable state of a `QRCode` instance: its configuration and the
`MatrixConstructor`'s grid, which `__init__` allocates once and
`build_matrix` mutates in place on every call. -/
structure QRState where
  version : Nat
  level : ECLevel
  matrix : Grid

/-- `QRCode.__init__(version, error_correction)`. -/
def initQR (version : Nat) (lvl : ECLevel) : QRState :=
  ⟨version, lvl, freshGrid⟩

/-- `QRCode.generate(data)`: encode, append redundancy, build the matrix.
Returns the produced grid (a snapshot of its cell values) together with the
instance state after the call; `none` models an uncaught exception from the
encoder. -/
def generate (st : QRState) (s : List Char) : Option (Grid × QRState) :=
  (encode st.version st.level s).map (fun bits =>
    let m := buildMatrix st.version (rsEncode bits st.version st.level) st.matrix
    (m, ⟨st.version, st.level, m⟩))

/-! ## Scan-order bookkeeping

`scanIdx size y x` is the number of non-function-pattern cells that the
row-major scan of `_add_data` visits strictly before reaching `(y, x)`:
the index into the bit list that the cell `(y, x)` would consume. -/

/-- The cells visited strictly before `(y, x)` in row-major order. -/
def scanPre (size y x : Nat) : List (Nat × Nat) :=
  (rowMajor size).takeWhile (fun p => decide (p ≠ (y, x)))

/-- Number of non-function-pattern cells visited strictly before `(y, x)`. -/
def scanIdx (size y x : Nat) : Nat :=
  (scanPre size y x).countP (fun p => !isFunctionPattern size p.2 p.1)

/-- Number of non-function-pattern cells in a list of positions. -/
def nfCount (size : Nat) (ps : List (Nat × Nat)) : Nat :=
  ps.countP (fun p => !isFunctionPattern size p.2 p.1)

/-- Total bit length of the numeric digit groups: 10 bits per full group of
3, 7 bits for a final pair, 4 bits for a final single digit. -/
def groupsBitLen : List Char → Nat
  | [] => 0
  | [_] => 4
  | [_, _] => 7
  | _ :: _ :: _ :: rest => 10 + groupsBitLen rest

/-- The all-dark grid, exhibiting that `_add_format_info` does not write
cell (8, 8). -/
def allDark : Grid := fun _ _ => true

/-- The text "11" used for the concrete two-call run. -/
def c1Text : List Char := ['1', '1']

/-- First generate call of the concrete two-call run (version 1, level M). -/
def c1Run1 : Grid × QRState :=
  (generate (initQR 1 ECLevel.M) c1Text).getD (freshGrid, initQR 1 ECLevel.M)

/-- Second generate call, on the instance state left by the first call. -/
def c1Run2 : Grid × QRState :=
  (generate c1Run1.2 c1Text).getD (freshGrid, initQR 1 ECLevel.M)

/-- Run used by the C10 witness: generate("7") at version 1, level M. -/
def c10Run : Grid × QRState :=
  (generate (initQR 1 ECLevel.M) ['7']).getD (freshGrid, initQR 1 ECLevel.M)

/-- Run used by the C8 witness: generate("7") at version 1, level M. -/
def c8Run : Grid × QRState :=
  (generate (initQR 1 ECLevel.M) ['7']).getD (freshGrid, initQR 1 ECLevel.M)

/-! ## Basic lemmas about cell updates -/

theorem setCell_self (g : Grid) (y x : Nat) (b : Bool) : setCell g y x b y x = b := by
  simp [setCell]

theorem setCell_of_ne (g : Grid) (y x : Nat) (b : Bool) (y' x' : Nat)
    (h : ¬(y' = y ∧ x' = x)) : setCell g y x b y' x' = g y' x' := by
  simp only [setCell, if_neg h]

theorem applyWrites_nil (g : Grid) : applyWrites g [] = g := rfl

theorem applyWrites_cons (g : Grid) (w : Nat × Nat × Bool) (ws : List (Nat × Nat × Bool)) :
    applyWrites g (w :: ws) = applyWrites (setCell g w.1 w.2.1 w.2.2) ws := rfl

theorem applyWrites_append (g : Grid) (l1 l2 : List (Nat × Nat × Bool)) :
    applyWrites g (l1 ++ l2) = applyWrites (applyWrites g l1) l2 := by
  simp [applyWrites, List.foldl_append]

theorem applyWrites_of_not_mem (g : Grid) (ws : List (Nat × Nat × Bool)) (y x : Nat)
    (h : ∀ w ∈ ws, ¬(y = w.1 ∧ x = w.2.1)) : applyWrites g ws y x = g y x := by
  induction ws generalizing g with
  | nil => rfl
  | cons w ws ih =>
      rw [applyWrites_cons, ih _ (fun v hv => h v (List.mem_cons_of_mem w hv)),
        setCell_of_ne _ _ _ _ _ _ (h w (List.mem_cons_self w ws))]

/-! ## The row-major scan list -/

theorem rowMajor_eq_product (size : Nat) :
    rowMajor size = (List.range size) ×ˢ (List.range size) := rfl

theorem rowMajor_mem (size y x : Nat) :
    (y, x) ∈ rowMajor size ↔ y < size ∧ x < size := by
  rw [rowMajor_eq_product]
  simp [List.pair_mem_product]

theorem rowMajor_nodup (size : Nat) : (rowMajor size).Nodup := by
  rw [rowMajor_eq_product]
  exact (List.nodup_range size).product (List.nodup_range size)

/-! ## Pointwise characterization of the masking pass -/

theorem maskStep_of_ne (size : Nat) (g : Grid) (p : Nat × Nat) (y x : Nat)
    (h : ¬(y = p.1 ∧ x = p.2)) : maskStep size g p y x = g y x := by
  unfold maskStep
  split
  · exact setCell_of_ne _ _ _ _ _ _ h
  · rfl

theorem foldl_maskStep_of_not_mem (size : Nat) (ps : List (Nat × Nat)) (g : Grid)
    (y x : Nat) (h : (y, x) ∉ ps) : (ps.foldl (maskStep size) g) y x = g y x := by
  induction ps generalizing g with
  | nil => rfl
  | cons p ps ih =>
      rw [List.foldl_cons, ih _ (fun hm => h (List.mem_cons_of_mem p hm))]
      exact maskStep_of_ne size g p y x (fun he =>
        h (by rw [show (y, x) = p from Prod.ext he.1 he.2]; exact List.mem_cons_self p ps))

theorem foldl_maskStep_get (size : Nat) (ps : List (Nat × Nat)) (hnd : ps.Nodup)
    (g : Grid) (y x : Nat) :
    (ps.foldl (maskStep size) g) y x =
      if (y, x) ∈ ps ∧ isFunctionPattern size x y = false ∧ (x + y) % 3 = 0
      then !g y x else g y x := by
  induction ps generalizing g with
  | nil => simp
  | cons p ps ih =>
      rcases List.nodup_cons.mp hnd with ⟨hp, hnd'⟩
      by_cases hq : p = (y, x)
      · subst hq
        rw [List.foldl_cons, foldl_maskStep_of_not_mem size ps _ y x hp]
        unfold maskStep
        rcases hf : isFunctionPattern size x y with _ | _
        · rcases h3 : (x + y) % 3 with _ | k
          · simp [hf, h3, setCell_self]
          · simp [hf, h3]
        · simp [hf]
      · rw [List.foldl_cons, ih hnd']
        have hne : ¬(y = p.1 ∧ x = p.2) := fun he => hq (Prod.ext he.1.symm he.2.symm)
        have hmem : ((y, x) ∈ p :: ps) ↔ ((y, x) ∈ ps) := by
          constructor
          · intro hm
            rcases List.mem_cons.mp hm with he | hm
            · exact absurd he.symm hq
            · exact hm
          · exact List.mem_cons_of_mem p
        rw [maskStep_of_ne size g p y x hne]
        by_cases hc : (y, x) ∈ ps ∧ isFunctionPattern size x y = false ∧ (x + y) % 3 = 0
        · rw [if_pos hc, if_pos (by rw [hmem]; exact hc)]
        · rw [if_neg hc, if_neg (by rw [hmem]; exact hc)]

/-- Pointwise description of `_apply_mask`: a cell is inverted exactly when it
is in range, is not a function-pattern cell, and satisfies
`(x + y) % 3 == 0`. -/
theorem applyMask_get (size : Nat) (g : Grid) (y x : Nat) :
    applyMask size g y x =
      if y < size ∧ x < size ∧ isFunctionPattern size x y = false ∧ (x + y) % 3 = 0
      then !g y x else g y x := by
  unfold applyMask
  rw [foldl_maskStep_get size (rowMajor size) (rowMajor_nodup size) g y x]
  by_cases hr : y < size ∧ x < size
  · by_cases hc : isFunctionPattern size x y = false ∧ (x + y) % 3 = 0
    · rw [if_pos ⟨(rowMajor_mem size y x).mpr hr, hc⟩, if_pos ⟨hr.1, hr.2, hc⟩]
    · rw [if_neg (fun h => hc h.2), if_neg (fun h => hc ⟨h.2.2.1, h.2.2.2⟩)]
  · rw [if_neg (fun h => hr ((rowMajor_mem size y x).mp h.1)),
      if_neg (fun h => hr ⟨h.1, h.2.1⟩)]

/-- Masking is an involution on every cell. -/
theorem applyMask_applyMask (size : Nat) (g : Grid) (y x : Nat) :
    applyMask size (applyMask size g) y x = g y x := by
  rw [applyMask_get, applyMask_get]
  split
  · simp
  · rfl

/-! ## Pointwise characterization of data placement -/

theorem addDataStep_fst_of_ne (size : Nat) (bits : List Nat) (st : Grid × Nat)
    (p : Nat × Nat) (y x : Nat) (h : ¬(y = p.1 ∧ x = p.2)) :
    (addDataStep size bits st p).1 y x = st.1 y x := by
  unfold addDataStep
  split
  · exact setCell_of_ne _ _ _ _ _ _ h
  · rfl

theorem foldl_addDataStep_of_not_mem (size : Nat) (bits : List Nat)
    (ps : List (Nat × Nat)) (st : Grid × Nat) (y x : Nat) (h : (y, x) ∉ ps) :
    ((ps.foldl (addDataStep size bits) st).1) y x = st.1 y x := by
  induction ps generalizing st with
  | nil => rfl
  | cons p ps ih =>
      rw [List.foldl_cons, ih _ (fun hm => h (List.mem_cons_of_mem p hm))]
      exact addDataStep_fst_of_ne size bits st p y x (fun he =>
        h (by rw [show (y, x) = p from Prod.ext he.1 he.2]; exact List.mem_cons_self p ps))


theorem addDataStep_eq_assign (size : Nat) (bits : List Nat) (st : Grid × Nat)
    (p : Nat × Nat) (hf : isFunctionPattern size p.2 p.1 = false)
    (hlt : st.2 < bits.length) :
    addDataStep size bits st p =
      (setCell st.1 p.1 p.2 (decide (bits.getD st.2 0 ≠ 0)), st.2 + 1) := by
  unfold addDataStep
  rw [hf, if_pos (by simp [hlt])]

theorem addDataStep_eq_self_of_func (size : Nat) (bits : List Nat) (st : Grid × Nat)
    (p : Nat × Nat) (hf : isFunctionPattern size p.2 p.1 = true) :
    addDataStep size bits st p = st := by
  unfold addDataStep
  rw [hf, if_neg (by simp)]

theorem addDataStep_eq_self_of_len (size : Nat) (bits : List Nat) (st : Grid × Nat)
    (p : Nat × Nat) (hlt : ¬st.2 < bits.length) :
    addDataStep size bits st p = st := by
  unfold addDataStep
  rw [if_neg (by simp [hlt])]

theorem foldl_addDataStep_get (size : Nat) (bits : List Nat) (ps : List (Nat × Nat))
    (hnd : ps.Nodup) (st : Grid × Nat) (hi : st.2 ≤ bits.length) (y x : Nat) :
    ((ps.foldl (addDataStep size bits) st).1) y x =
      if (y, x) ∈ ps ∧ isFunctionPattern size x y = false ∧
          st.2 + nfCount size (ps.takeWhile (fun p => decide (p ≠ (y, x)))) < bits.length
      then decide (bits.getD
        (st.2 + nfCount size (ps.takeWhile (fun p => decide (p ≠ (y, x))))) 0 ≠ 0)
      else st.1 y x := by
  induction ps generalizing st with
  | nil => simp
  | cons q ps ih =>
      rcases List.nodup_cons.mp hnd with ⟨hq0, hnd'⟩
      by_cases hq : q = (y, x)
      · subst hq
        have htw : List.takeWhile (fun p => decide (p ≠ (y, x))) ((y, x) :: ps) = [] := by
          simp [List.takeWhile]
        rw [htw, List.foldl_cons, foldl_addDataStep_of_not_mem size bits ps _ y x hq0]
        by_cases hf : isFunctionPattern size x y = false
        · by_cases hlt : st.2 < bits.length
          · rw [addDataStep_eq_assign size bits st (y, x) hf hlt]
            rw [if_pos ⟨List.mem_cons_self (y, x) ps, hf, by simpa [nfCount] using hlt⟩]
            simpa [nfCount] using setCell_self st.1 y x _
          · rw [addDataStep_eq_self_of_len size bits st (y, x) hlt]
            rw [if_neg (fun hc => hlt (by simpa [nfCount] using hc.2.2))]
        · rw [addDataStep_eq_self_of_func size bits st (y, x)
            ((Bool.not_eq_false _).mp hf)]
          rw [if_neg (fun hc => hf hc.2.1)]
      · have htw : List.takeWhile (fun p => decide (p ≠ (y, x))) (q :: ps) =
            q :: List.takeWhile (fun p => decide (p ≠ (y, x))) ps := by
          simp [List.takeWhile, hq]
        rw [htw]
        have hmem : ((y, x) ∈ q :: ps) ↔ ((y, x) ∈ ps) := by
          constructor
          · intro hm
            rcases List.mem_cons.mp hm with he | hm
            · exact absurd he.symm hq
            · exact hm
          · exact List.mem_cons_of_mem q
        rw [List.foldl_cons]
        by_cases hf : isFunctionPattern size q.2 q.1 = false
        · have hcount : nfCount size (q :: List.takeWhile (fun p => decide (p ≠ (y, x))) ps) =
              nfCount size (List.takeWhile (fun p => decide (p ≠ (y, x))) ps) + 1 := by
            simp [nfCount, List.countP_cons, hf]
          by_cases hlt : st.2 < bits.length
          · rw [addDataStep_eq_assign size bits st q hf hlt]
            rw [ih hnd' _ (show st.2 + 1 ≤ bits.length from by omega)]
            dsimp only
            rw [hcount,
              show st.2 + 1 + nfCount size (List.takeWhile (fun p => decide (p ≠ (y, x))) ps) =
                st.2 + (nfCount size (List.takeWhile (fun p => decide (p ≠ (y, x))) ps) + 1)
                from by omega]
            simp only [hmem]
            split
            · rfl
            · exact setCell_of_ne _ _ _ _ _ _
                (fun he => hq (Prod.ext he.1.symm he.2.symm))
          · rw [addDataStep_eq_self_of_len size bits st q hlt]
            rw [ih hnd' st hi]
            rw [if_neg (fun hc =>
                hlt (Nat.lt_of_le_of_lt (Nat.le_add_right _ _) hc.2.2)),
              if_neg (fun hc =>
                hlt (Nat.lt_of_le_of_lt (Nat.le_add_right _ _) hc.2.2))]
        · have hcount : nfCount size (q :: List.takeWhile (fun p => decide (p ≠ (y, x))) ps) =
              nfCount size (List.takeWhile (fun p => decide (p ≠ (y, x))) ps) := by
            simp [nfCount, List.countP_cons, (Bool.not_eq_false _).mp hf]
          rw [addDataStep_eq_self_of_func size bits st q ((Bool.not_eq_false _).mp hf)]
          rw [ih hnd' st hi, hcount]
          simp only [hmem]

/-- Pointwise description of `_add_data`: the row-major scan assigns
`bits[scanIdx]` to the in-range non-function-pattern cells whose scan index
is below the length of the bit list, and leaves every other cell unchanged. -/
theorem addData_get (size : Nat) (bits : List Nat) (g : Grid) (y x : Nat) :
    addData size bits g y x =
      if (y < size ∧ x < size) ∧ isFunctionPattern size x y = false ∧
          scanIdx size y x < bits.length
      then decide (bits.getD (scanIdx size y x) 0 ≠ 0) else g y x := by
  unfold addData
  rw [foldl_addDataStep_get size bits (rowMajor size) (rowMajor_nodup size) (g, 0)
    (Nat.zero_le _) y x]
  have hidx : scanIdx size y x =
      nfCount size ((rowMajor size).takeWhile (fun p => decide (p ≠ (y, x)))) := rfl
  by_cases hr : y < size ∧ x < size
  · by_cases hc : isFunctionPattern size x y = false ∧ scanIdx size y x < bits.length
    · rw [if_pos ⟨(rowMajor_mem size y x).mpr hr, hc.1, by
        rw [← hidx]; simpa using hc.2⟩, if_pos ⟨hr, hc⟩]
      rw [← hidx]
      simp
    · rw [if_neg (fun h => hc ⟨h.2.1, by rw [hidx]; simpa using h.2.2⟩),
        if_neg (fun h => hc h.2)]
  · rw [if_neg (fun h => hr ((rowMajor_mem size y x).mp h.1)), if_neg (fun h => hr h.1)]

/-! ## Encoder lemmas -/

theorem padToAux_length (fuel cap : Nat) (l : List Nat) (h : cap ≤ l.length + 8 * fuel) :
    cap ≤ (padToAux fuel cap l).length := by
  induction fuel generalizing l with
  | zero => simpa using h
  | succ fuel ih =>
      simp only [padToAux]
      split
      · exact ih _ (by simp only [List.length_append, List.length_cons, List.length_nil]; omega)
      · omega

/-- The padding loop always reaches the capacity. -/
theorem padTo_length (cap : Nat) (l : List Nat) : cap ≤ (padTo cap l).length :=
  padToAux_length cap cap l (by omega)

/-- The padding loop only appends, so it preserves any prefix of the input. -/
theorem padToAux_take (fuel cap n : Nat) (l : List Nat) (h : n ≤ l.length) :
    (padToAux fuel cap l).take n = l.take n := by
  induction fuel generalizing l with
  | zero => rfl
  | succ fuel ih =>
      simp only [padToAux]
      split
      · rw [ih _ (by simp only [List.length_append]; omega),
          List.take_append_of_le_length h]
      · rfl

theorem padTo_take (cap n : Nat) (l : List Nat) (h : n ≤ l.length) :
    (padTo cap l).take n = l.take n :=
  padToAux_take cap cap n l h

theorem bitsOfNatAux_length_le (fuel n w : Nat) (h : n < 2 ^ w) (hw : 1 ≤ w) :
    (bitsOfNatAux fuel n).length ≤ w := by
  induction fuel generalizing n w with
  | zero => simpa using hw
  | succ fuel ih =>
      simp only [bitsOfNatAux]
      split
      · simpa using hw
      · rename_i h2
        have hw2 : 2 ≤ w := by
          rcases w with _ | _ | w
          · omega
          · have : n < 2 := by simpa using h
            omega
          · omega
        have hdiv : n / 2 < 2 ^ (w - 1) := by
          have hpow : 2 ^ (w - 1) * 2 = 2 ^ w := by
            rw [← pow_succ]
            congr 1
            omega
          exact Nat.div_lt_of_lt_mul (by rw [Nat.mul_comm, hpow]; exact h)
        have := ih (n / 2) (w - 1) hdiv (by omega)
        simp only [List.length_append, List.length_cons, List.length_nil]
        omega

/-- `format(n, f'0{w}b')` has width exactly `w` when `n < 2^w`. -/
theorem numberToBits_length (n w : Nat) (h : n < 2 ^ w) (hw : 1 ≤ w) :
    (numberToBits n w).length = w := by
  unfold numberToBits bitsOfNat
  have := bitsOfNatAux_length_le n n w h hw
  simp only [List.length_append, List.length_replicate]
  omega

theorem capacity_le_100 (v : Nat) (lvl : ECLevel) : capacity v lvl ≤ 100 := by
  match v, lvl with
  | 0, lvl => cases lvl <;> decide
  | 1, lvl => cases lvl <;> decide
  | (n + 2), lvl => cases lvl <;> exact Nat.le_refl 100

theorem take_padTo_length (cap : Nat) (l : List Nat) :
    ((padTo cap l).take cap).length = cap := by
  rw [List.length_take]
  exact Nat.min_eq_left (padTo_length cap l)

/-- The encoder output, when the call returns at all, is the truncated padded
body, so it has length exactly `capacity`. -/
theorem encode_length (version : Nat) (lvl : ECLevel) (s : List Char)
    (out : List Nat) (h : encode version lvl s = some out) :
    out.length = capacity version lvl := by
  unfold encode at h
  split at h
  · unfold encodeNumeric at h
    rcases hg : numericGroupBits s with _ | payload
    · rw [hg] at h
      simp at h
    · rw [hg] at h
      simp only [Option.map_some'] at h
      rw [← Option.some_inj.mp h]
      exact take_padTo_length _ _
  · unfold encodeByte at h
    rw [← Option.some_inj.mp h]
    exact take_padTo_length _ _

/-! ## Claim theorems -/

/-- C7: for every bit list, version and level, `ReedSolomon.encode` returns
the input followed by its first `min(10, len)` elements; the result has
length `len + min(10, len)` and its last `min(10, len)` elements equal the
first `min(10, len)` elements of the input. -/
theorem claim_C7 (bits : List Nat) (v : Nat) (lvl : ECLevel) :
    rsEncode bits v lvl = bits ++ bits.take 10 ∧
    (rsEncode bits v lvl).length = bits.length + min 10 bits.length ∧
    (rsEncode bits v lvl).drop bits.length = bits.take (min 10 bits.length) := by
  refine ⟨rfl, ?_, ?_⟩
  · simp [rsEncode]
  · rw [show min 10 bits.length = 10 ⊓ bits.length from rfl, ← List.take_take,
      List.take_length, rsEncode, List.drop_left]

/-- C9: the masking pass is self-inverse: applying `_apply_mask` twice over
the same function-pattern predicate and size restores every cell of any
grid state. -/
theorem claim_C9 (size : Nat) (g : Grid) :
    applyMask size (applyMask size g) = g :=
  funext fun y => funext fun x => applyMask_applyMask size g y x

/-- C5: for every text, version and level, when the encoder returns, its
output has length exactly `capacity(version, level)`, in both numeric and
byte mode (the body is padded with 11101100 to capacity and truncated). -/
theorem claim_C5 (version : Nat) (lvl : ECLevel) (s : List Char)
    (out : List Nat) (h : encode version lvl s = some out) :
    out.length = capacity version lvl :=
  encode_length version lvl s out h

/-- Witness for C5: the concrete encoding of "7" at version 1, level M has
length 34 = capacity(1, M). -/
theorem claim_C5_witness :
    ([0, 0, 0, 1, 0, 0, 0, 0, 0, 0, 0, 0, 0, 1, 0, 1, 1, 1, 0, 0, 0, 0, 1, 1,
      1, 0, 1, 1, 0, 0, 1, 1, 1, 0] : List Nat).length = capacity 1 ECLevel.M :=
  claim_C5 1 ECLevel.M ['7'] _ (by decide)

/-! ## Inverting a successful generate call -/

theorem generate_eq_some (st : QRState) (s : List Char) (g : Grid) (st' : QRState)
    (h : generate st s = some (g, st')) :
    ∃ bits, encode st.version st.level s = some bits ∧
      g = buildMatrix st.version (rsEncode bits st.version st.level) st.matrix ∧
      st' = ⟨st.version, st.level, g⟩ := by
  unfold generate at h
  rcases henc : encode st.version st.level s with _ | bits
  · rw [henc] at h
    exact absurd h (by simp)
  · rw [henc] at h
    simp only [Option.map_some'] at h
    have h' : (buildMatrix st.version (rsEncode bits st.version st.level) st.matrix,
        (⟨st.version, st.level,
          buildMatrix st.version (rsEncode bits st.version st.level) st.matrix⟩ : QRState))
        = (g, st') := Option.some_inj.mp h
    have hfst : buildMatrix st.version (rsEncode bits st.version st.level) st.matrix = g :=
      congrArg Prod.fst h'
    have hsnd : (⟨st.version, st.level,
        buildMatrix st.version (rsEncode bits st.version st.level) st.matrix⟩ : QRState)
        = st' := congrArg Prod.snd h'
    exact ⟨bits, rfl, hfst.symm, hsnd.symm.trans (congrArg (QRState.mk st.version st.level) hfst)⟩

/-- Function-pattern cells are untouched by data placement and masking. -/
theorem buildMatrix_func_get (version : Nat) (bits : List Nat) (g : Grid) (y x : Nat)
    (hf : isFunctionPattern (qrSize version) x y = true) :
    buildMatrix version bits g y x = stampedFrom version g y x := by
  unfold buildMatrix
  rw [applyMask_get,
    if_neg (fun hc => absurd (hf.symm.trans hc.2.2.1) (by decide)),
    addData_get,
    if_neg (fun hc => absurd (hf.symm.trans hc.2.1) (by decide))]

theorem addAlignmentPatterns_one (size : Nat) (g : Grid) :
    addAlignmentPatterns 1 size g = g := by
  unfold addAlignmentPatterns
  rw [if_pos rfl]

/-! ## Cell (9, 15) of a version-1 build

Cell `(y, x) = (9, 15)` is not a function-pattern cell, its row-major scan
index 46 is beyond the 44 redundancy-stage bits of a version-1 encode, and
`(x + y) % 3 = 0`, so each `build_matrix` call inverts it. -/

theorem stampedFrom_one_9_15 (g : Grid) : stampedFrom 1 g 9 15 = g 9 15 := by
  unfold stampedFrom
  rw [addAlignmentPatterns_one]
  unfold addFormatInfo addDarkModule addTimingPatterns addFinderPatterns
  rw [applyWrites_of_not_mem _ formatWrites 9 15 (by decide),
    setCell_of_ne _ _ _ _ _ _ (by decide),
    applyWrites_of_not_mem _ _ 9 15 (by decide),
    applyWrites_of_not_mem _ _ 9 15 (by decide)]

theorem scanIdx_one_9_15 : scanIdx (qrSize 1) 9 15 = 46 := by decide

theorem buildMatrix_one_9_15 (bits : List Nat) (hlen : bits.length = 44) (g : Grid) :
    buildMatrix 1 bits g 9 15 = !(g 9 15) := by
  unfold buildMatrix
  rw [applyMask_get, if_pos ⟨by decide, by decide, by decide, by decide⟩,
    addData_get,
    if_neg (fun hc => by
      have h46 := scanIdx_one_9_15
      have := hc.2.2
      omega),
    stampedFrom_one_9_15]

/-- Two successive version-1/level-M generate calls on one instance produce
opposite values at cell (9, 15): the first call flips it from light to dark,
the second from dark back to light. -/
theorem generate_twice_9_15 (s : List Char) (g1 : Grid) (st1 : QRState)
    (g2 : Grid) (st2 : QRState)
    (h1 : generate (initQR 1 ECLevel.M) s = some (g1, st1))
    (h2 : generate st1 s = some (g2, st2)) :
    g1 9 15 = true ∧ g2 9 15 = false := by
  rcases generate_eq_some _ _ _ _ h1 with ⟨bits, henc, hg1, hst1⟩
  simp only [initQR] at henc hg1 hst1
  have hlen : (rsEncode bits 1 ECLevel.M).length = 44 := by
    have h34 : bits.length = 34 := encode_length 1 ECLevel.M s bits henc
    simp [rsEncode, List.length_take, h34]
  have hv1 : g1 9 15 = true := by
    rw [hg1, buildMatrix_one_9_15 _ hlen]
    rfl
  refine ⟨hv1, ?_⟩
  rcases generate_eq_some _ _ _ _ h2 with ⟨bits2, henc2, hg2, hst2⟩
  rw [hst1] at henc2 hg2
  dsimp only at henc2 hg2
  have hb : bits2 = bits := Option.some_inj.mp (henc2.symm.trans henc)
  rw [hb] at hg2
  rw [hg2, buildMatrix_one_9_15 _ hlen, hv1]
  rfl

/-- C1 (corrected): with the constructor-allocated grid reused across calls,
two successive version-1/level-M `generate(t)` calls on the same instance
always return different grids — dark at (9, 15) after the first call, light
there after the second. -/
theorem claim_C1 (s : List Char) (g1 : Grid) (st1 : QRState)
    (g2 : Grid) (st2 : QRState)
    (h1 : generate (initQR 1 ECLevel.M) s = some (g1, st1))
    (h2 : generate st1 s = some (g2, st2)) :
    g1 9 15 = true ∧ g2 9 15 = false ∧ g1 ≠ g2 := by
  rcases generate_twice_9_15 s g1 st1 g2 st2 h1 h2 with ⟨hv1, hv2⟩
  refine ⟨hv1, hv2, fun he => ?_⟩
  rw [he, hv2] at hv1
  exact Bool.noConfusion hv1


/-- C1 counterexample: on the same instance, the grid returned by the first
generate("11") call differs from the grid returned by the second. -/
theorem claim_C1_counterexample : c1Run1.1 ≠ c1Run2.1 := by
  rcases generate_twice_9_15 c1Text c1Run1.1 c1Run1.2 c1Run2.1 c1Run2.2 rfl rfl
    with ⟨hv1, hv2⟩
  intro he
  rw [he, hv2] at hv1
  exact Bool.noConfusion hv1

/-- Witness for C1 at the concrete input "11". -/
theorem claim_C1_witness :
    c1Run1.1 9 15 = true ∧ c1Run2.1 9 15 = false ∧ c1Run1.1 ≠ c1Run2.1 :=
  claim_C1 c1Text c1Run1.1 c1Run1.2 c1Run2.1 c1Run2.2 rfl rfl

/-- C3 (code bug): "²" (U+00B2) satisfies Python str.isdigit, so the encoder
takes the numeric path, where int('²') raises ValueError — generate raises
instead of returning a grid, contradicting the no-exception claim. -/
theorem claim_C3 :
    pyIsDigit ['²'] = true ∧ encode 1 ECLevel.M ['²'] = none ∧
    (generate (initQR 1 ECLevel.M) ['²']).isNone = true := by
  refine ⟨by decide, by decide, ?_⟩
  rw [show generate (initQR 1 ECLevel.M) ['²'] =
    (encode 1 ECLevel.M ['²']).map _ from rfl]
  rw [show encode 1 ECLevel.M ['²'] = none from by decide]
  rfl

/-- C10 counterexample: at version 1 the function-pattern predicate returns
true (not false, as claimed) at the dark-module cell (x, y) = (8, 13). -/
theorem claim_C10_counterexample :
    isFunctionPattern (qrSize 1) 8 (4 * 1 + 9) = true := by decide

/-- C10 (corrected): for every positive version, `_is_function_pattern`
returns true at the dark-module cell (x = 8, y = 4*version+9), because the
format-margin disjunct x < 9 ∧ y > size − 9 covers it; the cell is therefore
excluded from data placement and masking, and the version-1 final grid keeps
the dark module dark. -/
theorem claim_C10 :
    (∀ version, 1 ≤ version →
      isFunctionPattern (qrSize version) 8 (4 * version + 9) = true) ∧
    (∀ s g st', generate (initQR 1 ECLevel.M) s = some (g, st') → g 13 8 = true) := by
  constructor
  · intro version hv
    simp only [isFunctionPattern, qrSize, Bool.or_eq_true, Bool.and_eq_true,
      decide_eq_true_eq]
    omega
  · intro s g st' h
    rcases generate_eq_some _ _ _ _ h with ⟨bits, henc, hg, hst⟩
    simp only [initQR] at hg
    rw [hg, buildMatrix_func_get 1 _ _ 13 8 (by decide)]
    unfold stampedFrom
    rw [addAlignmentPatterns_one]
    unfold addFormatInfo addDarkModule
    rw [applyWrites_of_not_mem _ formatWrites 13 8 (by decide)]
    exact setCell_self _ _ _ _


/-- Witness for C10: version 1 and the concrete run on "7". -/
theorem claim_C10_witness :
    isFunctionPattern (qrSize 1) 8 (4 * 1 + 9) = true ∧ c10Run.1 13 8 = true :=
  ⟨claim_C10.1 1 (Nat.le_refl 1), claim_C10.2 ['7'] c10Run.1 c10Run.2 rfl⟩


/-- C2 counterexample: the format-information step never writes the claimed
format cell at row 8, column 8 — starting from an all-dark grid it is still
dark after the step, so the step does not set all 15 cells to light. -/
theorem claim_C2_counterexample : addFormatInfo allDark 8 8 = true := by decide

/-- C2 (amended): the step performs 15 writes covering only 14 distinct
cells, all set to light: row 8 columns 0–5 and 7 (column 7 written twice,
for i = 6 and i = 7) and column 8 rows 6 down to 0; cell (8, 8) keeps its
prior value. In the version-1 pipeline that cell is already light when the
step runs, so there all 15 format positions are light after the step. -/
theorem claim_C2 :
    formatWrites = [(8, 0, false), (8, 1, false), (8, 2, false), (8, 3, false),
      (8, 4, false), (8, 5, false), (8, 7, false), (8, 7, false), (6, 8, false),
      (5, 8, false), (4, 8, false), (3, 8, false), (2, 8, false), (1, 8, false),
      (0, 8, false)] ∧
    (∀ g : Grid, ∀ x, x ∈ [0, 1, 2, 3, 4, 5, 7] → addFormatInfo g 8 x = false) ∧
    (∀ g : Grid, ∀ y, y ∈ [0, 1, 2, 3, 4, 5, 6] → addFormatInfo g y 8 = false) ∧
    (∀ g : Grid, addFormatInfo g 8 8 = g 8 8) ∧
    (∀ y x, (y = 8 ∧ x ≤ 8 ∧ x ≠ 6) ∨ (x = 8 ∧ y ≤ 6) →
      stampedFrom 1 freshGrid y x = false) := by
  refine ⟨by decide, ?_, ?_, ?_, ?_⟩
  · intro g x hx
    fin_cases hx <;> rfl
  · intro g y hy
    fin_cases hy <;> rfl
  · intro g
    exact applyWrites_of_not_mem _ _ _ _ (by decide)
  · intro y x h
    rcases h with ⟨rfl, hx, hne⟩ | ⟨rfl, hy⟩
    · interval_cases x <;> first | (exact absurd rfl hne) | decide
    · interval_cases y <;> decide

/-! ## Numeric-mode bit stream structure (C6) -/


theorem digitVal_le (c : Char) (h : isAsciiDigit c = true) : digitVal c ≤ 9 := by
  unfold isAsciiDigit at h
  rw [Bool.and_eq_true, decide_eq_true_eq, decide_eq_true_eq] at h
  unfold digitVal
  omega

theorem groupsBitLen_ge : ∀ s : List Char, 3 * s.length ≤ groupsBitLen s
  | [] => Nat.le_refl 0
  | [_] => by simp [groupsBitLen]
  | [_, _] => by simp [groupsBitLen]
  | _ :: _ :: _ :: rest => by
      have := groupsBitLen_ge rest
      simp only [groupsBitLen, List.length_cons]
      omega

theorem pyIntDigits_eq_some (cs : List Char) (hne : cs ≠ [])
    (hd : cs.all isAsciiDigit = true) :
    pyIntDigits cs = some (cs.foldl (fun a c => 10 * a + digitVal c) 0) := by
  unfold pyIntDigits
  rw [if_pos ⟨hne, hd⟩]

/-- On an all-decimal-digit string the grouping loop succeeds and produces
exactly `groupsBitLen s` bits. -/
theorem numericGroupBits_of_digits :
    ∀ s : List Char, s.all isAsciiDigit = true →
      ∃ payload, numericGroupBits s = some payload ∧ payload.length = groupsBitLen s
  | [], _ => ⟨[], rfl, rfl⟩
  | [d1], h => by
      have h1 : isAsciiDigit d1 = true := by simpa using h
      refine ⟨numberToBits (digitVal d1) 4, ?_, ?_⟩
      · unfold numericGroupBits
        rw [pyIntDigits_eq_some [d1] (by simp) (by simpa using h1)]
        simp [List.foldl]
      · have := digitVal_le d1 h1
        exact numberToBits_length _ 4 (by norm_num; omega) (by norm_num)
  | [d1, d2], h => by
      have h1 : isAsciiDigit d1 = true := by
        have := h
        simp [List.all_cons] at this
        exact this.1
      have h2 : isAsciiDigit d2 = true := by
        have := h
        simp [List.all_cons] at this
        exact this.2
      refine ⟨numberToBits (10 * digitVal d1 + digitVal d2) 7, ?_, ?_⟩
      · unfold numericGroupBits
        rw [pyIntDigits_eq_some [d1, d2] (by simp) (by simp [List.all_cons, h1, h2])]
        simp [List.foldl]
      · have b1 := digitVal_le d1 h1
        have b2 := digitVal_le d2 h2
        exact numberToBits_length _ 7 (by norm_num; omega) (by norm_num)
  | d1 :: d2 :: d3 :: rest, h => by
      have hall : isAsciiDigit d1 = true ∧ isAsciiDigit d2 = true ∧
          isAsciiDigit d3 = true ∧ rest.all isAsciiDigit = true := by
        simpa [List.all_cons, and_assoc] using h
      rcases numericGroupBits_of_digits rest hall.2.2.2 with ⟨tail, htail, hlen⟩
      refine ⟨numberToBits (10 * (10 * digitVal d1 + digitVal d2) + digitVal d3) 10
        ++ tail, ?_, ?_⟩
      · unfold numericGroupBits
        rw [pyIntDigits_eq_some [d1, d2, d3] (by simp)
          (by simp [List.all_cons, hall.1, hall.2.1, hall.2.2.1]), htail]
        simp [List.foldl]
      · have b1 := digitVal_le d1 hall.1
        have b2 := digitVal_le d2 hall.2.1
        have b3 := digitVal_le d3 hall.2.2.1
        rw [List.length_append, hlen,
          numberToBits_length _ 10 (by norm_num; omega) (by norm_num)]
        rfl

theorem charCountBits_ge_8 (version : Nat) (lvl : ECLevel) :
    8 ≤ charCountBits version lvl := by
  unfold charCountBits
  split
  · cases lvl <;> decide
  · omega

/-- C6: for every all-decimal-digit string whose numeric-mode framing fits
within the capacity, the encoder output begins with the mode indicator 0001,
then the character count `len(s)` in a field of width 10 (version 1-9,
level L/M), 8 (version 1-9, level Q/H) or 12 (otherwise), then the digit
groups of 3 as 10-bit values (final pair: 7 bits, final single digit:
4 bits), unharmed by padding and truncation. -/
theorem claim_C6 (version : Nat) (lvl : ECLevel) (s : List Char) (out : List Nat)
    (hd : s.all isAsciiDigit = true)
    (hfit : 4 + charCountBits version lvl + groupsBitLen s ≤ capacity version lvl)
    (hout : encodeNumeric version lvl s = some out) :
    out.take (4 + charCountBits version lvl + groupsBitLen s) =
      [0, 0, 0, 1] ++ numberToBits s.length (charCountBits version lvl)
        ++ (numericGroupBits s).getD [] ∧
    (numericGroupBits s).isSome = true ∧
    ((numericGroupBits s).getD []).length = groupsBitLen s ∧
    (numberToBits s.length (charCountBits version lvl)).length =
      charCountBits version lvl ∧
    charCountBits version lvl =
      (if 1 ≤ version ∧ version ≤ 9 then
        (if lvl = ECLevel.L ∨ lvl = ECLevel.M then 10 else 8) else 12) := by
  rcases numericGroupBits_of_digits s hd with ⟨payload, hpay, hplen⟩
  have hcb8 := charCountBits_ge_8 version lvl
  have hcap := capacity_le_100 version lvl
  have h3len := groupsBitLen_ge s
  have hslen : s.length ≤ 29 := by omega
  have h256 : (256 : Nat) ≤ 2 ^ charCountBits version lvl := by
    calc (256 : Nat) = 2 ^ 8 := by norm_num
    _ ≤ 2 ^ charCountBits version lvl := Nat.pow_le_pow_right (by norm_num) hcb8
  have hcntlen : (numberToBits s.length (charCountBits version lvl)).length =
      charCountBits version lvl :=
    numberToBits_length _ _ (by omega) (by omega)
  have hwidth : charCountBits version lvl =
      (if 1 ≤ version ∧ version ≤ 9 then
        (if lvl = ECLevel.L ∨ lvl = ECLevel.M then 10 else 8) else 12) := by
    unfold charCountBits
    split
    · cases lvl <;> decide
    · rfl
  refine ⟨?_, by rw [hpay]; rfl, by rw [hpay]; simpa using hplen, hcntlen, hwidth⟩
  unfold encodeNumeric at hout
  rw [hpay] at hout
  simp only [Option.map_some'] at hout
  rw [← Option.some_inj.mp hout]
  rw [hpay]
  show ((padTo (capacity version lvl) _).take (capacity version lvl)).take _ = _
  rw [List.take_take, Nat.min_eq_left hfit]
  have hbody : ([0, 0, 0, 1] ++ numberToBits s.length (charCountBits version lvl)
      ++ payload ++ [0, 0, 0, 0]) =
      (([0, 0, 0, 1] ++ numberToBits s.length (charCountBits version lvl)
        ++ payload) ++ [0, 0, 0, 0]) := by
    simp [List.append_assoc]
  rw [hbody]
  have hprelen : ([0, 0, 0, 1] ++ numberToBits s.length (charCountBits version lvl)
      ++ payload).length = 4 + charCountBits version lvl + groupsBitLen s := by
    simp only [List.length_append, List.length_cons, List.length_nil, hcntlen, hplen]
    try omega
  rw [padTo_take _ _ _ (by rw [List.length_append, hprelen]; omega)]
  rw [show 4 + charCountBits version lvl + groupsBitLen s =
    ([0, 0, 0, 1] ++ numberToBits s.length (charCountBits version lvl)
      ++ payload).length from hprelen.symm]
  rw [List.take_left]
  simp

/-- Witness for C2: concrete instances of the amended statement — the step
sets (8, 3) light on any grid, leaves (8, 8) untouched, and in the
version-1 pipeline the format cell (8, 0) is light after the step. -/
theorem claim_C2_witness :
    addFormatInfo freshGrid 8 3 = false ∧
    addFormatInfo freshGrid 8 8 = freshGrid 8 8 ∧
    stampedFrom 1 freshGrid 8 0 = false :=
  ⟨claim_C2.2.1 freshGrid 3 (by decide), claim_C2.2.2.2.1 freshGrid,
   claim_C2.2.2.2.2 8 0 (Or.inl ⟨rfl, by decide, by decide⟩)⟩

/-! ## Stamp lemmas for the nested loops of the finder patterns -/

theorem applyWrites_map_range_at (m : Nat) (pos : Nat → Nat × Nat) (v : Nat → Bool)
    (hinj : ∀ j1 j2, j1 < m → j2 < m → pos j1 = pos j2 → j1 = j2)
    (j : Nat) (hj : j < m) (g : Grid) :
    applyWrites g ((List.range m).map (fun j' => ((pos j').1, (pos j').2, v j')))
      (pos j).1 (pos j).2 = v j := by
  induction m generalizing g with
  | zero => omega
  | succ m ih =>
      rw [List.range_succ, List.map_append, applyWrites_append]
      rcases Nat.lt_or_ge j m with hjm | hjm
      · show setCell _ (pos m).1 (pos m).2 (v m) (pos j).1 (pos j).2 = v j
        rw [setCell_of_ne _ _ _ _ _ _ (fun he =>
          Nat.lt_irrefl m (by
            have : j = m := hinj j m (by omega) (by omega) (Prod.ext he.1 he.2)
            omega))]
        exact ih (fun j1 j2 h1 h2 he => hinj j1 j2 (by omega) (by omega) he) hjm g
      · have hj' : j = m := by omega
        subst hj'
        show setCell _ (pos j).1 (pos j).2 (v j) (pos j).1 (pos j).2 = v j
        exact setCell_self _ _ _ _

theorem applyWrites_flatMap_range_at (n m : Nat) (pos : Nat → Nat → Nat × Nat)
    (v : Nat → Nat → Bool)
    (hinj : ∀ i1 j1 i2 j2, i1 < n → j1 < m → i2 < n → j2 < m →
      pos i1 j1 = pos i2 j2 → i1 = i2 ∧ j1 = j2)
    (i j : Nat) (hi : i < n) (hj : j < m) (g : Grid) :
    applyWrites g ((List.range n).flatMap (fun i' =>
        (List.range m).map (fun j' => ((pos i' j').1, (pos i' j').2, v i' j'))))
      (pos i j).1 (pos i j).2 = v i j := by
  induction n generalizing g with
  | zero => omega
  | succ n ih =>
      rw [List.range_succ, List.flatMap_append, applyWrites_append]
      rcases Nat.lt_or_ge i n with him | him
      · rw [show (([n] : List Nat).flatMap (fun i' =>
            (List.range m).map (fun j' => ((pos i' j').1, (pos i' j').2, v i' j')))) =
            ((List.range m).map (fun j' => ((pos n j').1, (pos n j').2, v n j'))) from by
          simp]
        rw [applyWrites_of_not_mem _ _ _ _ (by
          intro w hw
          rcases List.mem_map.mp hw with ⟨j', hj', rfl⟩
          have hj'm : j' < m := List.mem_range.mp hj'
          intro he
          have := (hinj i j n j' (by omega) hj (by omega) hj'm
            (Prod.ext he.1 he.2)).1
          omega)]
        exact ih (fun i1 j1 i2 j2 h1 h2 h3 h4 he =>
          hinj i1 j1 i2 j2 (by omega) h2 (by omega) h4 he) (by omega) g
      · have hi' : i = n := by omega
        subst hi'
        rw [show (([i] : List Nat).flatMap (fun i' =>
            (List.range m).map (fun j' => ((pos i' j').1, (pos i' j').2, v i' j')))) =
            ((List.range m).map (fun j' => ((pos i j').1, (pos i j').2, v i j'))) from by
          simp]
        exact applyWrites_map_range_at m (pos i) (v i)
          (fun j1 j2 h1 h2 he => (hinj i j1 i j2 (by omega) h1 (by omega) h2 he).2)
          j hj _

/-- Reading back a cell of one freshly stamped finder block. -/
theorem finderBlock_stamp (g : Grid) (x0 y0 i j : Nat) (hi : i < 7) (hj : j < 7) :
    applyWrites g (finderBlockWrites x0 y0) (y0 + j) (x0 + i) = finderCellVal i j := by
  have h := applyWrites_flatMap_range_at 7 7 (fun i' j' => (y0 + j', x0 + i'))
    (fun i' j' => finderCellVal i' j')
    (by
      intro i1 j1 i2 j2 _ _ _ _ he
      have h1 := congrArg Prod.fst he
      have h2 := congrArg Prod.snd he
      simp only [] at h1 h2
      omega)
    i j hi hj g
  exact h

theorem finderBlockWrites_pos (x0 y0 : Nat) (w : Nat × Nat × Bool)
    (hw : w ∈ finderBlockWrites x0 y0) :
    ∃ i' j', i' < 7 ∧ j' < 7 ∧ w.1 = y0 + j' ∧ w.2.1 = x0 + i' := by
  simp only [finderBlockWrites, List.mem_flatMap, List.mem_map, List.mem_range] at hw
  rcases hw with ⟨i', hi', j', hj', rfl⟩
  exact ⟨i', j', hi', hj', rfl, rfl⟩

/-! ## Position bounds for the writes of the non-finder steps -/

theorem formatWrites_pos :
    ∀ w ∈ formatWrites, (w.1 = 8 ∧ w.2.1 ≤ 7) ∨ (w.1 ≤ 6 ∧ w.2.1 = 8) := by decide

theorem timingWrites_pos (size : Nat) (w : Nat × Nat × Bool)
    (hw : w ∈ (timingRange size).map (fun i => (6, i, decide (i % 2 = 0)))
      ++ (timingRange size).map (fun i => (i, 6, decide (i % 2 = 0)))) :
    (w.1 = 6 ∧ 8 ≤ w.2.1 ∧ w.2.1 < size - 8) ∨
    (8 ≤ w.1 ∧ w.1 < size - 8 ∧ w.2.1 = 6) := by
  rcases List.mem_append.mp hw with hw1 | hw1
  · rcases List.mem_map.mp hw1 with ⟨k, hk, rfl⟩
    rcases List.mem_map.mp (by exact hk : k ∈ (List.range (size - 16)).map (fun m => m + 8))
      with ⟨m, hm, rfl⟩
    have := List.mem_range.mp hm
    left
    exact ⟨rfl, by show 8 ≤ m + 8; omega, by show m + 8 < size - 8; omega⟩
  · rcases List.mem_map.mp hw1 with ⟨k, hk, rfl⟩
    rcases List.mem_map.mp (by exact hk : k ∈ (List.range (size - 16)).map (fun m => m + 8))
      with ⟨m, hm, rfl⟩
    have := List.mem_range.mp hm
    right
    exact ⟨by show 8 ≤ m + 8; omega, by show m + 8 < size - 8; omega, rfl⟩

theorem alignWrites_pos (version size : Nat) (hsize : 25 ≤ size) (w : Nat × Nat × Bool)
    (hw : w ∈ ((alignPositions version size).filter
      (fun p => !alignSkip size p)).flatMap alignWrites) :
    size - 11 ≤ w.1 ∧ w.1 ≤ size - 5 ∧ size - 11 ≤ w.2.1 ∧ w.2.1 ≤ size - 5 := by
  rcases List.mem_flatMap.mp hw with ⟨p, hp, hw2⟩
  have hpmem := (List.mem_filter.mp hp).1
  have hpeq : p = (size - 7, size - 7) ∨ p = (size - 9, size - 9) := by
    unfold alignPositions at hpmem
    split at hpmem
    · exact Or.inl (by simpa using hpmem)
    · exact Or.inr (by simpa using hpmem)
  simp only [alignWrites, List.mem_flatMap, List.mem_map, List.mem_range] at hw2
  rcases hw2 with ⟨i', hi', j', hj', rfl⟩
  rcases hpeq with rfl | rfl <;> simp only [] <;> omega

end QR

namespace QR

/-- Reading a finder-block cell after `_add_finder_patterns`: the later
blocks never overlap the earlier ones, so each block cell holds its stamp. -/
theorem addFinderPatterns_corner (size : Nat) (hsize : 21 ≤ size) (g : Grid)
    (x0 y0 i j : Nat)
    (hc : (y0 = 0 ∧ x0 = 0) ∨ (y0 = 0 ∧ x0 = size - 7) ∨ (y0 = size - 7 ∧ x0 = 0))
    (hi : i < 7) (hj : j < 7) :
    addFinderPatterns size g (y0 + j) (x0 + i) = finderCellVal i j := by
  unfold addFinderPatterns
  rw [applyWrites_append, applyWrites_append]
  rcases hc with ⟨h1, h2⟩ | ⟨h1, h2⟩ | ⟨h1, h2⟩ <;> subst h1 <;> subst h2
  · rw [applyWrites_of_not_mem _ _ _ _ (by
      intro w hw
      rcases finderBlockWrites_pos _ _ w hw with ⟨i', j', hi', hj', he1, he2⟩
      intro he
      rcases he with ⟨ha, hb⟩
      omega)]
    rw [applyWrites_of_not_mem _ _ _ _ (by
      intro w hw
      rcases finderBlockWrites_pos _ _ w hw with ⟨i', j', hi', hj', he1, he2⟩
      intro he
      rcases he with ⟨ha, hb⟩
      omega)]
    exact finderBlock_stamp g 0 0 i j hi hj
  · rw [applyWrites_of_not_mem _ _ _ _ (by
      intro w hw
      rcases finderBlockWrites_pos _ _ w hw with ⟨i', j', hi', hj', he1, he2⟩
      intro he
      rcases he with ⟨ha, hb⟩
      omega)]
    exact finderBlock_stamp _ (size - 7) 0 i j hi hj
  · exact finderBlock_stamp _ 0 (size - 7) i j hi hj

/-- Finder-block cells after the whole pre-data stamping phase: the
alignment, timing, dark-module and format steps never write into the three
finder blocks. -/
theorem stampedFrom_corner (version : Nat) (g : Grid) (x0 y0 i j : Nat)
    (hv : 1 ≤ version)
    (hc : (y0 = 0 ∧ x0 = 0) ∨ (y0 = 0 ∧ x0 = qrSize version - 7) ∨
      (y0 = qrSize version - 7 ∧ x0 = 0))
    (hi : i < 7) (hj : j < 7) :
    stampedFrom version g (y0 + j) (x0 + i) = finderCellVal i j := by
  have hs : qrSize version = (version - 1) * 4 + 21 := rfl
  unfold stampedFrom addFormatInfo addDarkModule addTimingPatterns
  rw [applyWrites_of_not_mem _ formatWrites _ _ (by
    intro w hw
    have hpos := formatWrites_pos w hw
    intro he
    rcases he with ⟨ha, hb⟩
    rcases hc with ⟨h1, h2⟩ | ⟨h1, h2⟩ | ⟨h1, h2⟩ <;> omega)]
  rw [setCell_of_ne _ _ _ _ _ _ (by
    intro he
    rcases he with ⟨ha, hb⟩
    rcases hc with ⟨h1, h2⟩ | ⟨h1, h2⟩ | ⟨h1, h2⟩ <;> omega)]
  rw [applyWrites_of_not_mem _ _ _ _ (by
    intro w hw
    have hpos := timingWrites_pos (qrSize version) w hw
    intro he
    rcases he with ⟨ha, hb⟩
    rcases hc with ⟨h1, h2⟩ | ⟨h1, h2⟩ | ⟨h1, h2⟩ <;> omega)]
  rcases Nat.lt_or_ge version 2 with hv2 | hv2
  · have hv1 : version = 1 := by omega
    subst hv1
    rw [addAlignmentPatterns_one]
    exact addFinderPatterns_corner _ (by omega) g x0 y0 i j hc hi hj
  · unfold addAlignmentPatterns
    rw [if_neg (by omega)]
    rw [applyWrites_of_not_mem _ _ _ _ (by
      intro w hw
      have hpos := alignWrites_pos version (qrSize version) (by omega) w hw
      intro he
      rcases he with ⟨ha, hb⟩
      rcases hc with ⟨h1, h2⟩ | ⟨h1, h2⟩ | ⟨h1, h2⟩ <;> omega)]
    exact addFinderPatterns_corner _ (by omega) _ x0 y0 i j hc hi hj

/-- Every finder-block cell is a function-pattern cell. -/
theorem corner_cells_func (version : Nat) (x0 y0 i j : Nat) (hv : 1 ≤ version)
    (hc : (y0 = 0 ∧ x0 = 0) ∨ (y0 = 0 ∧ x0 = qrSize version - 7) ∨
      (y0 = qrSize version - 7 ∧ x0 = 0))
    (hi : i < 7) (hj : j < 7) :
    isFunctionPattern (qrSize version) (x0 + i) (y0 + j) = true := by
  have hs : qrSize version = (version - 1) * 4 + 21 := rfl
  simp only [isFunctionPattern, Bool.or_eq_true, Bool.and_eq_true, decide_eq_true_eq]
  rcases hc with ⟨h1, h2⟩ | ⟨h1, h2⟩ | ⟨h1, h2⟩ <;> subst h1 <;> subst h2 <;> omega

/-- Finder-block cells of the final matrix hold the stamped value. -/
theorem buildMatrix_corner (version : Nat) (bits : List Nat) (g : Grid)
    (x0 y0 i j : Nat) (hv : 1 ≤ version)
    (hc : (y0 = 0 ∧ x0 = 0) ∨ (y0 = 0 ∧ x0 = qrSize version - 7) ∨
      (y0 = qrSize version - 7 ∧ x0 = 0))
    (hi : i < 7) (hj : j < 7) :
    buildMatrix version bits g (y0 + j) (x0 + i) = finderCellVal i j := by
  rw [buildMatrix_func_get version bits g _ _ (corner_cells_func version x0 y0 i j hv hc hi hj)]
  exact stampedFrom_corner version g x0 y0 i j hv hc hi hj

theorem finderCellVal_eq_ring_core :
    ∀ i, i < 7 → ∀ j, j < 7 → finderCellVal i j =
      decide (i = 0 ∨ i = 6 ∨ j = 0 ∨ j = 6 ∨ (2 ≤ i ∧ i ≤ 4 ∧ 2 ≤ j ∧ j ≤ 4)) := by
  decide

/-- C8: in every grid returned by generate (any positive version, any level,
any text), each of the three 7x7 finder blocks anchored at (0,0),
(size-7,0) and (0,size-7) has a dark cell exactly at the outer ring
(offset 0 or 6 on either axis) and the 3x3 core (offsets 2-4 on both axes);
the later steps never alter these blocks. -/
theorem claim_C8 (version : Nat) (lvl : ECLevel) (s : List Char) (g : Grid)
    (st' : QRState) (hv : 1 ≤ version)
    (h : generate (initQR version lvl) s = some (g, st'))
    (p : Nat × Nat)
    (hp : p ∈ [(0, 0), (qrSize version - 7, 0), (0, qrSize version - 7)])
    (i j : Nat) (hi : i < 7) (hj : j < 7) :
    g (p.2 + j) (p.1 + i) =
      decide (i = 0 ∨ i = 6 ∨ j = 0 ∨ j = 6 ∨ (2 ≤ i ∧ i ≤ 4 ∧ 2 ≤ j ∧ j ≤ 4)) := by
  rcases generate_eq_some _ _ _ _ h with ⟨bits, henc, hg, hst⟩
  simp only [initQR] at hg
  have hc : (p.2 = 0 ∧ p.1 = 0) ∨ (p.2 = 0 ∧ p.1 = qrSize version - 7) ∨
      (p.2 = qrSize version - 7 ∧ p.1 = 0) := by
    rcases List.mem_cons.mp hp with he | hp2
    · exact Or.inl ⟨congrArg Prod.snd he, congrArg Prod.fst he⟩
    · rcases List.mem_cons.mp hp2 with he | hp3
      · exact Or.inr (Or.inl ⟨congrArg Prod.snd he, congrArg Prod.fst he⟩)
      · rcases List.mem_cons.mp hp3 with he | hp4
        · exact Or.inr (Or.inr ⟨congrArg Prod.snd he, congrArg Prod.fst he⟩)
        · exact absurd hp4 (List.not_mem_nil p)
  rw [hg, buildMatrix_corner version _ _ p.1 p.2 i j hv hc hi hj]
  exact finderCellVal_eq_ring_core i hi j hj

/-- On the version-1 grid, after the five stamping steps every cell that the
function-pattern predicate leaves to the data region is still light (there
is no alignment pattern at version 1). -/
theorem stampedFrom_one_nonfunc_light :
    ∀ y, y < 21 → ∀ x, x < 21 → isFunctionPattern 21 x y = false →
      stampedFrom 1 freshGrid y x = false := by decide

/-- C4 (amended): the data-placement step scans row-major, assigns
`bits[scanIdx]` exactly to the non-function-pattern cells whose scan index
is below the bit count, and leaves every other cell at the value it had
when the step started.  On the version-1 pipeline those remaining cells are
all at the default light value; for version ≥ 2 the stamped alignment
cells (which the predicate does not classify as function-pattern cells) are
not, see the counterexample. -/
theorem claim_C4 :
    (∀ version bits (g : Grid) y x, 1 ≤ version →
      y < qrSize version → x < qrSize version →
      addData (qrSize version) bits g y x =
        if isFunctionPattern (qrSize version) x y = false ∧
            scanIdx (qrSize version) y x < bits.length
        then decide (bits.getD (scanIdx (qrSize version) y x) 0 ≠ 0) else g y x) ∧
    (∀ bits : List Nat, ∀ y x, y < 21 → x < 21 → isFunctionPattern 21 x y = false →
      bits.length ≤ scanIdx 21 y x →
      addData 21 bits (stampedFrom 1 freshGrid) y x = false) := by
  constructor
  · intro version bits g y x hv hy hx
    rw [addData_get]
    by_cases hcnd : isFunctionPattern (qrSize version) x y = false ∧
        scanIdx (qrSize version) y x < bits.length
    · rw [if_pos ⟨⟨hy, hx⟩, hcnd⟩, if_pos hcnd]
    · rw [if_neg (fun hc => hcnd hc.2), if_neg hcnd]
  · intro bits y x hy hx hf hlen
    rw [addData_get, if_neg (fun hc => by
      have := hc.2.2
      omega)]
    exact stampedFrom_one_nonfunc_light y hy x hx hf

/-- C4 counterexample: at version 2 with an exhausted bit stream, cell
(x, y) = (16, 16) — part of the alignment-pattern ring, which the
function-pattern predicate does not reserve — is dark after the
data-placement step, not at its default light value. -/
theorem claim_C4_counterexample :
    isFunctionPattern (qrSize 2) 16 16 = false ∧
    addData (qrSize 2) [] (stampedFrom 2 freshGrid) 16 16 = true := by
  refine ⟨by decide, ?_⟩
  rw [addData_get, if_neg (fun hc => absurd hc.2.2 (by simp))]
  decide

/-- Witness for C4: version 1 with one data bit at the first scanned cell
(0, 9), and the empty bit stream leaving non-reserved cell (9, 15) light. -/
theorem claim_C4_witness :
    (addData (qrSize 1) [1] freshGrid 0 9 =
      if isFunctionPattern (qrSize 1) 9 0 = false ∧
          scanIdx (qrSize 1) 0 9 < ([1] : List Nat).length
      then decide ((([1] : List Nat).getD (scanIdx (qrSize 1) 0 9) 0) ≠ 0)
      else freshGrid 0 9) ∧
    addData 21 [] (stampedFrom 1 freshGrid) 9 15 = false :=
  ⟨claim_C4.1 1 [1] freshGrid 0 9 (Nat.le_refl 1) (by decide) (by decide),
   claim_C4.2 [] 9 15 (by decide) (by decide) (by decide) (Nat.zero_le _)⟩


/-- Witness for C8: version 1, level M, text "7", top-left block, offsets
(1, 1) (an explicitly light cell). -/
theorem claim_C8_witness :
    c8Run.1 ((0, 0).2 + 1) ((0, 0).1 + 1) =
      decide ((1 : Nat) = 0 ∨ (1 : Nat) = 6 ∨ (1 : Nat) = 0 ∨ (1 : Nat) = 6 ∨
        (2 ≤ (1 : Nat) ∧ (1 : Nat) ≤ 4 ∧ 2 ≤ (1 : Nat) ∧ (1 : Nat) ≤ 4)) :=
  claim_C8 1 ECLevel.M ['7'] c8Run.1 c8Run.2 (Nat.le_refl 1) rfl (0, 0) (by decide)
    1 1 (by decide) (by decide)

/-- Witness for C6 at version 1, level M, s = "123456": the full 34-bit
output is mode indicator, 10-bit count 6, and two 10-bit groups 123, 456. -/
theorem claim_C6_witness :
    (['1', '2', '3', '4', '5', '6'].all isAsciiDigit = true) ∧
    (4 + charCountBits 1 ECLevel.M + groupsBitLen ['1', '2', '3', '4', '5', '6']
      ≤ capacity 1 ECLevel.M) ∧
    (encodeNumeric 1 ECLevel.M ['1', '2', '3', '4', '5', '6'] =
      some [0, 0, 0, 1, 0, 0, 0, 0, 0, 0, 0, 1, 1, 0, 0, 0, 0, 1, 1, 1, 1, 0, 1,
        1, 0, 1, 1, 1, 0, 0, 1, 0, 0, 0]) ∧
    (([0, 0, 0, 1, 0, 0, 0, 0, 0, 0, 0, 1, 1, 0, 0, 0, 0, 1, 1, 1, 1, 0, 1, 1,
      0, 1, 1, 1, 0, 0, 1, 0, 0, 0] : List Nat).take
        (4 + charCountBits 1 ECLevel.M + groupsBitLen ['1', '2', '3', '4', '5', '6']) =
      [0, 0, 0, 1] ++ numberToBits (['1', '2', '3', '4', '5', '6'].length)
        (charCountBits 1 ECLevel.M)
        ++ (numericGroupBits ['1', '2', '3', '4', '5', '6']).getD []) :=
  ⟨by decide, by decide, by decide,
    (claim_C6 1 ECLevel.M ['1', '2', '3', '4', '5', '6'] _ (by decide) (by decide)
      (by decide)).1⟩

end QR
